import Mathlib

/-!
Verification of the usage & cost accounting core of the OpenAIBasics
repository (file `foundations/token-cost-demo.js`): the `PRICING` table,
the `CostTracker` class (`trackConversation`, `generateReport`,
`exportToCSV`) and the `calculateProjectedCosts` function, shallowly
embedded in Lean.  Monetary amounts are embedded as rationals, token
counts as integers (JavaScript numbers are untyped; the reference code
performs no validation), and the stateful tracker as explicit state
passing.
-/

namespace TokenCost

/-- One entry of the `PRICING` table: price per million tokens (USD)
for prompt (`input`) and completion (`output`) tokens. -/
structure Pricing where
  input : ℚ
  output : ℚ
deriving DecidableEq, Repr

/-- The `PRICING` constant of `token-cost-demo.js` (lines 23-27). -/
def PRICING : List (String × Pricing) :=
  [("gpt-4o-mini", ⟨0.150, 0.600⟩),
   ("gpt-4o", ⟨2.50, 10.00⟩),
   ("gpt-3.5-turbo", ⟨0.50, 1.50⟩)]

/-- `PRICING[model]` as an option: `none` models the `undefined` lookup
that makes `PRICING[model].input` throw in JavaScript. -/
def priceFor (model : String) : Option Pricing :=
  (PRICING.find? (fun p => p.1 == model)).map Prod.snd

/-- The `usage` object of an OpenAI chat-completion response:
`prompt_tokens`, `completion_tokens`, `total_tokens`.  Fields are
integers (the reference code trusts whatever the collaborator
supplies, so no non-negativity is built in). -/
structure Usage where
  prompt_tokens : Int
  completion_tokens : Int
  total_tokens : Int
deriving DecidableEq, Repr

/-- The `costs` record built in `trackConversation`
(`{ inputCost, outputCost, total }`). -/
structure Costs where
  inputCost : ℚ
  outputCost : ℚ
  total : ℚ
deriving DecidableEq, Repr

/-- One `session` object pushed onto `this.sessions`
(`token-cost-demo.js` lines 62-71). -/
structure Session where
  id : Nat
  model : String
  description : String
  usage : Usage
  costs : Costs
  responseTime : Nat
  timestamp : String
  response : String
deriving DecidableEq, Repr

/-- The mutable fields of a `CostTracker` instance
(constructor, lines 33-38). -/
structure CostTracker where
  sessions : List Session
  totalCost : ℚ
  totalTokens : Int
  conversationCount : Nat
deriving DecidableEq, Repr

/-- `new CostTracker()`: empty session list, zero totals. -/
def CostTracker.empty : CostTracker :=
  { sessions := [], totalCost := 0, totalTokens := 0, conversationCount := 0 }

/-- Errors that abort `trackConversation` before any state mutation:
either the external API call failed, or the pricing lookup failed
(in JavaScript, `PRICING[model].input` throwing on `undefined`;
the repository's own test helper `calculateExpectedCost` raises
`Unknown model` for the same condition). -/
inductive TrackError where
  | apiError (msg : String)
  | unknownModel (model : String)
deriving DecidableEq, Repr

/-- The accounting part of `trackConversation` (lines 56-76): price
lookup, cost computation, session construction, state update.  It is
reached only after a usage record has been obtained from the external
call; the spec names this operation `recordSession`.  All state
mutation happens in the success branch. -/
def CostTracker.recordSession (t : CostTracker) (usage : Usage)
    (model : String) (description : String) (responseTime : Nat)
    (timestamp : String) (response : String) :
    Except TrackError (CostTracker × Session) :=
  match priceFor model with
  | none => .error (.unknownModel model)
  | some pricing =>
    let inputCost : ℚ := ((usage.prompt_tokens : ℚ) / 1000000) * pricing.input
    let outputCost : ℚ := ((usage.completion_tokens : ℚ) / 1000000) * pricing.output
    let conversationCost : ℚ := inputCost + outputCost
    let session : Session :=
      { id := t.conversationCount + 1
        model := model
        description := description
        usage := usage
        costs := ⟨inputCost, outputCost, conversationCost⟩
        responseTime := responseTime
        timestamp := timestamp
        response := response }
    .ok ({ sessions := t.sessions ++ [session]
           totalCost := t.totalCost + conversationCost
           totalTokens := t.totalTokens + usage.total_tokens
           conversationCount := t.conversationCount + 1 }, session)

/-- Outcome of the external `openai.chat.completions.create` call:
usage counts and the response text. -/
structure ApiResponse where
  usage : Usage
  content : String
deriving DecidableEq, Repr

/-- `trackConversation` (lines 40-87): the external call's outcome is a
parameter (the tracker does not perform the network call itself); a
failed call is re-thrown by the `catch` block with no state change,
and a successful one proceeds to the accounting step. -/
def CostTracker.trackConversation (t : CostTracker)
    (apiResult : Except String ApiResponse) (model : String)
    (description : String) (responseTime : Nat) (timestamp : String) :
    Except TrackError (CostTracker × Session) :=
  match apiResult with
  | .error e => .error (.apiError e)
  | .ok resp =>
    t.recordSession resp.usage model description responseTime timestamp resp.content

/-- The caller-supplied arguments of one `recordSession` call. -/
structure Call where
  usage : Usage
  model : String
  description : String
  responseTime : Nat
  timestamp : String
  response : String
deriving DecidableEq, Repr

/-- Run one `recordSession` call against a tracker, keeping the old
state when the call throws (in JavaScript the exception propagates and
the instance is untouched). -/
def CostTracker.record1 (t : CostTracker) (c : Call) : CostTracker :=
  match t.recordSession c.usage c.model c.description c.responseTime c.timestamp c.response with
  | .ok (t2, _) => t2
  | .error _ => t

/-- Run a sequence of `recordSession` calls. -/
def CostTracker.recordAll (t : CostTracker) (cs : List Call) : CostTracker :=
  cs.foldl CostTracker.record1 t

/-- The `CostBreakdown.totalCost` that `recordSession` computes for one
call (`0` when the model is unknown and the call throws instead). -/
def callCost (c : Call) : ℚ :=
  match priceFor c.model with
  | none => 0
  | some pricing =>
    ((c.usage.prompt_tokens : ℚ) / 1000000) * pricing.input
      + ((c.usage.completion_tokens : ℚ) / 1000000) * pricing.output

end TokenCost

namespace TokenCost

/-- A failed pricing lookup leaves the tracker untouched. -/
theorem record1_of_none {t : CostTracker} {c : Call}
    (h : priceFor c.model = none) : t.record1 c = t := by
  simp [CostTracker.record1, CostTracker.recordSession, h]

/-- A successful pricing lookup appends one session and bumps the
running totals additively. -/
theorem record1_of_some {t : CostTracker} {c : Call} {p : Pricing}
    (h : priceFor c.model = some p) :
    t.record1 c =
      { sessions := t.sessions ++
          [{ id := t.conversationCount + 1
             model := c.model
             description := c.description
             usage := c.usage
             costs := ⟨((c.usage.prompt_tokens : ℚ) / 1000000) * p.input,
                       ((c.usage.completion_tokens : ℚ) / 1000000) * p.output,
                       callCost c⟩
             responseTime := c.responseTime
             timestamp := c.timestamp
             response := c.response }]
        totalCost := t.totalCost + callCost c
        totalTokens := t.totalTokens + c.usage.total_tokens
        conversationCount := t.conversationCount + 1 } := by
  simp [CostTracker.record1, CostTracker.recordSession, h, callCost]

theorem recordAll_cons (t : CostTracker) (c : Call) (cs : List Call) :
    t.recordAll (c :: cs) = (t.record1 c).recordAll cs := rfl

/-- Running totals after a sequence of successful calls, relative to an
arbitrary starting state. -/
theorem recordAll_totals (cs : List Call) :
    ∀ t : CostTracker, (∀ c ∈ cs, (priceFor c.model).isSome) →
      (t.recordAll cs).totalCost = t.totalCost + (cs.map callCost).sum ∧
      (t.recordAll cs).totalTokens
        = t.totalTokens + (cs.map (fun c => c.usage.total_tokens)).sum ∧
      (t.recordAll cs).conversationCount = t.conversationCount + cs.length ∧
      (t.recordAll cs).sessions.length = t.sessions.length + cs.length := by
  induction cs with
  | nil => intro t _; simp [CostTracker.recordAll]
  | cons c cs ih =>
    intro t h
    obtain ⟨p, hp⟩ := Option.isSome_iff_exists.mp (h c (List.mem_cons_self c cs))
    have ih2 := ih (t.record1 c) (fun d hd => h d (List.mem_cons_of_mem c hd))
    rw [recordAll_cons]
    refine ⟨?_, ?_, ?_, ?_⟩
    · rw [ih2.1, record1_of_some hp]; simp [add_assoc]
    · rw [ih2.2.1, record1_of_some hp]; simp [add_assoc]
    · rw [ih2.2.2.1, record1_of_some hp]; simp; omega
    · rw [ih2.2.2.2, record1_of_some hp]; simp; omega

/-- The id bookkeeping invariant: the conversation counter equals the
number of stored sessions and the stored ids are `1, 2, ..., n`. -/
def IdInv (t : CostTracker) : Prop :=
  t.conversationCount = t.sessions.length ∧
  t.sessions.map Session.id = List.range' 1 t.sessions.length

theorem idInv_empty : IdInv CostTracker.empty := by
  constructor <;> simp [CostTracker.empty]

theorem idInv_record1 {t : CostTracker} (c : Call) (h : IdInv t) :
    IdInv (t.record1 c) := by
  obtain ⟨h1, h2⟩ := h
  cases hp : priceFor c.model with
  | none => rw [record1_of_none hp]; exact ⟨h1, h2⟩
  | some p =>
    rw [record1_of_some hp]
    constructor
    · simp [h1]
    · simp only [List.map_append, List.length_append, List.map_cons, List.map_nil,
        List.length_cons, List.length_nil]
      rw [List.range'_concat]
      simp [h1, h2, Nat.add_comm]

theorem idInv_recordAll (cs : List Call) :
    ∀ t : CostTracker, IdInv t → IdInv (t.recordAll cs) := by
  induction cs with
  | nil => intro t h; exact h
  | cons c cs ih => intro t h; rw [recordAll_cons]; exact ih _ (idInv_record1 c h)

end TokenCost

namespace TokenCost

/-- A sample successful call against the low-cost model. -/
def sampleCallMini : Call :=
  ⟨⟨50, 30, 80⟩, "gpt-4o-mini", "Customer Service - Order Status", 12,
    "2025-01-01T00:00:00.000Z", "ok"⟩

/-- A sample successful call against the premium model, same usage. -/
def sampleCall4o : Call :=
  ⟨⟨50, 30, 80⟩, "gpt-4o", "Model Comparison - GPT-4o", 15,
    "2025-01-01T00:00:01.000Z", "ok"⟩

/-- C1: for every sequence of successful `recordSession` calls starting
from the empty tracker, `totalCost` equals the sum of the per-call
computed `CostBreakdown` totals, `totalTokens` equals the sum of the
supplied `total_tokens`, and `conversationCount` equals the length of
the session list. -/
theorem claim1_totals_additive (cs : List Call)
    (hall : ∀ c ∈ cs, (priceFor c.model).isSome) :
    (CostTracker.empty.recordAll cs).totalCost = (cs.map callCost).sum ∧
    (CostTracker.empty.recordAll cs).totalTokens
      = (cs.map (fun c => c.usage.total_tokens)).sum ∧
    (CostTracker.empty.recordAll cs).conversationCount
      = (CostTracker.empty.recordAll cs).sessions.length := by
  obtain ⟨h1, h2, h3, h4⟩ := recordAll_totals cs CostTracker.empty hall
  refine ⟨?_, ?_, ?_⟩
  · rw [h1]; simp [CostTracker.empty]
  · rw [h2]; simp [CostTracker.empty]
  · rw [h3, h4]; simp [CostTracker.empty]

theorem claim1_totals_additive_witness :
    (∀ c ∈ [sampleCallMini, sampleCall4o], (priceFor c.model).isSome) ∧
    ((CostTracker.empty.recordAll [sampleCallMini, sampleCall4o]).totalCost
       = ([sampleCallMini, sampleCall4o].map callCost).sum ∧
     (CostTracker.empty.recordAll [sampleCallMini, sampleCall4o]).totalTokens
       = ([sampleCallMini, sampleCall4o].map (fun c => c.usage.total_tokens)).sum ∧
     (CostTracker.empty.recordAll [sampleCallMini, sampleCall4o]).conversationCount
       = (CostTracker.empty.recordAll [sampleCallMini, sampleCall4o]).sessions.length) :=
  ⟨by decide, claim1_totals_additive [sampleCallMini, sampleCall4o] (by decide)⟩

/-- C2: after any sequence of successful `recordSession` calls on a
fresh tracker, the k-th recorded session (1-indexed) has id k; each id
is assigned as the previous `conversationCount + 1`; ids are strictly
increasing. -/
theorem claim2_session_ids (cs : List Call)
    (hall : ∀ c ∈ cs, (priceFor c.model).isSome) :
    (∀ k (hk : k < (CostTracker.empty.recordAll cs).sessions.length),
        ((CostTracker.empty.recordAll cs).sessions.get ⟨k, hk⟩).id = k + 1) ∧
    (∀ (t t2 : CostTracker) (c : Call) (s : Session),
        t.recordSession c.usage c.model c.description c.responseTime c.timestamp c.response
          = .ok (t2, s) → s.id = t.conversationCount + 1) ∧
    (∀ i j (hi : i < (CostTracker.empty.recordAll cs).sessions.length)
        (hj : j < (CostTracker.empty.recordAll cs).sessions.length), i < j →
        ((CostTracker.empty.recordAll cs).sessions.get ⟨i, hi⟩).id
          < ((CostTracker.empty.recordAll cs).sessions.get ⟨j, hj⟩).id) := by
  have hinv := idInv_recordAll cs CostTracker.empty idInv_empty
  obtain ⟨-, hm⟩ := hinv
  have hget : ∀ k (hk : k < (CostTracker.empty.recordAll cs).sessions.length),
      ((CostTracker.empty.recordAll cs).sessions.get ⟨k, hk⟩).id = k + 1 := by
    intro k hk
    have hk2 : k < (List.map Session.id (CostTracker.empty.recordAll cs).sessions).length := by
      simpa using hk
    have h1 : (List.map Session.id (CostTracker.empty.recordAll cs).sessions)[k]
        = ((CostTracker.empty.recordAll cs).sessions.get ⟨k, hk⟩).id := by
      simp
    rw [List.getElem_of_eq hm hk2, List.getElem_range'] at h1
    omega
  refine ⟨hget, ?_, ?_⟩
  · intro t t2 c s hrec
    cases hp : priceFor c.model with
    | none => simp [CostTracker.recordSession, hp] at hrec
    | some p =>
      simp [CostTracker.recordSession, hp] at hrec
      have := hrec.2
      rw [← this]
  · intro i j hi hj hij
    rw [hget i hi, hget j hj]
    omega

theorem claim2_session_ids_witness :
    (∀ c ∈ [sampleCallMini, sampleCall4o], (priceFor c.model).isSome) ∧
    (∀ k (hk : k < (CostTracker.empty.recordAll [sampleCallMini, sampleCall4o]).sessions.length),
        ((CostTracker.empty.recordAll [sampleCallMini, sampleCall4o]).sessions.get ⟨k, hk⟩).id
          = k + 1) :=
  ⟨by decide, (claim2_session_ids [sampleCallMini, sampleCall4o] (by decide)).1⟩

end TokenCost

namespace TokenCost

/-- A call whose model has no `PRICING` entry. -/
def badModelCall : Call :=
  ⟨⟨50, 30, 80⟩, "not-a-real-model", "bad", 1, "2025-01-01T00:00:00.000Z", "r"⟩

/-- C3: when the model has no pricing entry, `recordSession` fails with
the unknown-model error and the tracker state is exactly unchanged. -/
theorem claim3_unknown_model_rejected (t : CostTracker) (c : Call)
    (h : priceFor c.model = none) :
    t.recordSession c.usage c.model c.description c.responseTime c.timestamp c.response
      = .error (.unknownModel c.model) ∧
    t.record1 c = t := by
  refine ⟨?_, record1_of_none h⟩
  simp [CostTracker.recordSession, h]

theorem claim3_unknown_model_rejected_witness :
    priceFor badModelCall.model = none ∧
    (CostTracker.empty.recordSession badModelCall.usage badModelCall.model
        badModelCall.description badModelCall.responseTime badModelCall.timestamp
        badModelCall.response
      = .error (.unknownModel badModelCall.model) ∧
     CostTracker.empty.record1 badModelCall = CostTracker.empty) :=
  ⟨by decide, claim3_unknown_model_rejected CostTracker.empty badModelCall (by decide)⟩

/-- C4: the computed breakdown follows the per-million price formula;
for the $2.50/$10.00 model, 1,000,000 prompt and 500,000 completion
tokens cost exactly 2.50 + 5.00 = 7.50; zero usage costs {0, 0, 0}. -/
theorem claim4_cost_formula :
    (∀ (t : CostTracker) (u : Usage) (model d ts r : String) (n : Nat) (p : Pricing),
      priceFor model = some p →
      ∃ t2 s, t.recordSession u model d n ts r = .ok (t2, s) ∧
        s.costs.inputCost = (u.prompt_tokens : ℚ) / 1000000 * p.input ∧
        s.costs.outputCost = (u.completion_tokens : ℚ) / 1000000 * p.output ∧
        s.costs.total = s.costs.inputCost + s.costs.outputCost) ∧
    (∃ t2 s, CostTracker.empty.recordSession ⟨1000000, 500000, 1500000⟩ "gpt-4o" "" 0 "" ""
        = .ok (t2, s) ∧ s.costs = ⟨2.50, 5.00, 7.50⟩) ∧
    (∀ (t : CostTracker) (model : String) (p : Pricing), priceFor model = some p →
      ∃ t2 s, t.recordSession ⟨0, 0, 0⟩ model "" 0 "" "" = .ok (t2, s) ∧
        s.costs = ⟨0, 0, 0⟩) := by
  have hgen : ∀ (t : CostTracker) (u : Usage) (model d ts r : String) (n : Nat) (p : Pricing),
      priceFor model = some p →
      ∃ t2 s, t.recordSession u model d n ts r = .ok (t2, s) ∧
        s.costs.inputCost = (u.prompt_tokens : ℚ) / 1000000 * p.input ∧
        s.costs.outputCost = (u.completion_tokens : ℚ) / 1000000 * p.output ∧
        s.costs.total = s.costs.inputCost + s.costs.outputCost := by
    intro t u model d ts r n p hp
    unfold CostTracker.recordSession
    rw [hp]
    exact ⟨_, _, rfl, rfl, rfl, rfl⟩
  refine ⟨hgen, ?_, ?_⟩
  · obtain ⟨t2, s, hok, h1, h2, h3⟩ :=
      hgen CostTracker.empty ⟨1000000, 500000, 1500000⟩ "gpt-4o" "" "" "" 0
        ⟨2.50, 10.00⟩ rfl
    refine ⟨t2, s, hok, ?_⟩
    have he : s.costs = ⟨s.costs.inputCost, s.costs.outputCost, s.costs.total⟩ := rfl
    rw [he, h3, h1, h2]
    simp only [Costs.mk.injEq]
    norm_num
  · intro t model p hp
    obtain ⟨t2, s, hok, h1, h2, h3⟩ := hgen t ⟨0, 0, 0⟩ model "" "" "" 0 p hp
    refine ⟨t2, s, hok, ?_⟩
    have he : s.costs = ⟨s.costs.inputCost, s.costs.outputCost, s.costs.total⟩ := rfl
    rw [he, h3, h1, h2]
    simp only [Costs.mk.injEq]
    norm_num

theorem claim4_cost_formula_witness :
    priceFor "gpt-4o-mini" = some ⟨0.150, 0.600⟩ ∧
    (∃ t2 s, CostTracker.empty.recordSession ⟨50, 30, 80⟩ "gpt-4o-mini" "" 0 "" ""
        = .ok (t2, s) ∧
      s.costs.inputCost = ((50 : Int) : ℚ) / 1000000 * (0.150 : ℚ) ∧
      s.costs.outputCost = ((30 : Int) : ℚ) / 1000000 * (0.600 : ℚ) ∧
      s.costs.total = s.costs.inputCost + s.costs.outputCost) :=
  ⟨rfl, claim4_cost_formula.1 CostTracker.empty ⟨50, 30, 80⟩ "gpt-4o-mini" "" "" "" 0
    ⟨0.150, 0.600⟩ rfl⟩

/-- C9 counterexample: the reference code performs no validation of the
usage record.  A usage record with negative `prompt_tokens` is accepted:
the call succeeds, the session is appended, and the computed input cost
is negative — so the claimed `InvalidUsageError` rejection does not
happen. -/
theorem claim9_counterexample :
    ∃ t2 s, CostTracker.empty.recordSession ⟨-100, 50, -50⟩ "gpt-4o-mini" "" 0 "" ""
        = .ok (t2, s) ∧ t2.sessions.length = 1 ∧ s.costs.inputCost < 0 := by
  unfold CostTracker.recordSession
  rw [show priceFor "gpt-4o-mini" = some ⟨0.150, 0.600⟩ from rfl]
  refine ⟨_, _, rfl, by simp [CostTracker.empty], ?_⟩
  show ((-100 : Int) : ℚ) / 1000000 * (0.150 : ℚ) < 0
  norm_num

/-- C9 amended: `recordSession` trusts its input.  For every usage
record — malformed or not — and every model present in the pricing
table, the call succeeds and appends exactly one session computed by
the usual formula; no validation error exists. -/
theorem claim9_no_validation (t : CostTracker) (u : Usage)
    (model d ts r : String) (n : Nat) (p : Pricing)
    (hp : priceFor model = some p) :
    ∃ t2 s, t.recordSession u model d n ts r = .ok (t2, s) ∧
      t2.sessions = t.sessions ++ [s] ∧
      s.costs.inputCost = (u.prompt_tokens : ℚ) / 1000000 * p.input := by
  unfold CostTracker.recordSession
  rw [hp]
  exact ⟨_, _, rfl, rfl, rfl⟩

theorem claim9_no_validation_witness :
    priceFor "gpt-4o-mini" = some ⟨0.150, 0.600⟩ ∧
    (∃ t2 s, CostTracker.empty.recordSession ⟨-100, 50, -50⟩ "gpt-4o-mini" "x" 0 "" ""
        = .ok (t2, s) ∧
      t2.sessions = CostTracker.empty.sessions ++ [s] ∧
      s.costs.inputCost = ((-100 : Int) : ℚ) / 1000000 * (0.150 : ℚ)) :=
  ⟨rfl, claim9_no_validation CostTracker.empty ⟨-100, 50, -50⟩ "gpt-4o-mini" "x" "" "" 0
    ⟨0.150, 0.600⟩ rfl⟩

/-- Run one full `trackConversation` call, keeping the old state when
it throws. -/
def CostTracker.track1 (t : CostTracker) (apiResult : Except String ApiResponse)
    (model : String) (d : String) (n : Nat) (ts : String) : CostTracker :=
  match t.trackConversation apiResult model d n ts with
  | .ok (t2, _) => t2
  | .error _ => t

/-- C10: `trackConversation` mutates the tracker only after the
external call has succeeded and the cost computation has gone through:
whenever it throws — and it throws exactly when the external call
failed or the pricing lookup failed — the tracker is left exactly as it
was. -/
theorem claim10_atomic_on_error (t : CostTracker)
    (apiResult : Except String ApiResponse) (model d ts : String) (n : Nat) :
    ((∃ e, t.trackConversation apiResult model d n ts = .error e) →
      t.track1 apiResult model d n ts = t) ∧
    ((∃ e, t.trackConversation apiResult model d n ts = .error e) ↔
      (∃ msg, apiResult = .error msg) ∨ priceFor model = none) := by
  constructor
  · rintro ⟨e, he⟩
    simp [CostTracker.track1, he]
  · cases apiResult with
    | error msg => simp [CostTracker.trackConversation]
    | ok resp =>
      cases hp : priceFor model with
      | none =>
        simp [CostTracker.trackConversation, CostTracker.recordSession, hp]
      | some p =>
        simp [CostTracker.trackConversation, CostTracker.recordSession, hp]

theorem claim10_atomic_on_error_witness :
    (∃ e, CostTracker.empty.trackConversation (.error "network down") "gpt-4o-mini" "" 0 ""
        = .error e) ∧
    CostTracker.empty.track1 (.error "network down") "gpt-4o-mini" "" 0 ""
      = CostTracker.empty :=
  ⟨⟨.apiError "network down", rfl⟩,
    (claim10_atomic_on_error CostTracker.empty (.error "network down") "gpt-4o-mini" "" "" 0).1
      ⟨.apiError "network down", rfl⟩⟩

end TokenCost

namespace TokenCost

/-- The return value of `calculateProjectedCosts`
(`token-cost-demo.js` lines 268-276). -/
structure Projection where
  model : String
  conversations : ℚ
  totalTokens : ℚ
  inputCost : ℚ
  outputCost : ℚ
  totalCost : ℚ
  costPerConversation : ℚ
deriving DecidableEq, Repr

/-- `calculateProjectedCosts` (lines 257-277): projects workload cost
from an average token count, a conversation count and a model, with the
hard-wired 40% input / 60% output token split.  A missing pricing entry
makes `pricing.input` throw in JavaScript, embedded as the
unknown-model error. -/
def calculateProjectedCosts (avgTokens : ℚ) (conversations : ℚ) (model : String) :
    Except TrackError Projection :=
  match priceFor model with
  | none => .error (.unknownModel model)
  | some pricing =>
    let inputRatio : ℚ := 0.4
    let outputRatio : ℚ := 0.6
    let inputTokens := avgTokens * inputRatio * conversations
    let outputTokens := avgTokens * outputRatio * conversations
    let inputCost := inputTokens / 1000000 * pricing.input
    let outputCost := outputTokens / 1000000 * pricing.output
    .ok { model := model
          conversations := conversations
          totalTokens := avgTokens * conversations
          inputCost := inputCost
          outputCost := outputCost
          totalCost := inputCost + outputCost
          costPerConversation := (inputCost + outputCost) / conversations }

/-- C6: for positive inputs and a model in the table, the projection
follows the token-split formula with inputRatio 0.4 and
outputRatio = 1 - 0.4, the per-million-token price formula, and
costPerConversation = totalCost / conversationCount; an absent model
yields the unknown-model error. -/
theorem claim6_projection_formula (avg conv : ℚ) (mi mo : String) (p : Pricing)
    (hp : priceFor mi = some p) (hmo : priceFor mo = none)
    (havg : 0 < avg) (hconv : 0 < conv) :
    (∃ proj, calculateProjectedCosts avg conv mi = .ok proj ∧
      proj.inputCost = avg * (0.4 : ℚ) * conv / 1000000 * p.input ∧
      proj.outputCost = avg * (1 - (0.4 : ℚ)) * conv / 1000000 * p.output ∧
      proj.totalCost = proj.inputCost + proj.outputCost ∧
      proj.costPerConversation = proj.totalCost / conv) ∧
    calculateProjectedCosts avg conv mo = .error (.unknownModel mo) := by
  constructor
  · unfold calculateProjectedCosts
    rw [hp]
    refine ⟨_, rfl, rfl, ?_, rfl, rfl⟩
    show avg * (0.6 : ℚ) * conv / 1000000 * p.output
        = avg * (1 - (0.4 : ℚ)) * conv / 1000000 * p.output
    norm_num
  · unfold calculateProjectedCosts
    rw [hmo]

theorem claim6_projection_formula_witness :
    (priceFor "gpt-4o-mini" = some ⟨0.150, 0.600⟩ ∧
     priceFor "o9-imaginary" = none ∧ (0 : ℚ) < 100 ∧ (0 : ℚ) < 1000) ∧
    ((∃ proj, calculateProjectedCosts 100 1000 "gpt-4o-mini" = .ok proj ∧
      proj.inputCost = 100 * (0.4 : ℚ) * 1000 / 1000000 * (0.150 : ℚ) ∧
      proj.outputCost = 100 * (1 - (0.4 : ℚ)) * 1000 / 1000000 * (0.600 : ℚ) ∧
      proj.totalCost = proj.inputCost + proj.outputCost ∧
      proj.costPerConversation = proj.totalCost / 1000) ∧
     calculateProjectedCosts 100 1000 "o9-imaginary" = .error (.unknownModel "o9-imaginary")) :=
  ⟨⟨rfl, rfl, by norm_num, by norm_num⟩,
    claim6_projection_formula 100 1000 "gpt-4o-mini" "o9-imaginary" ⟨0.150, 0.600⟩
      rfl rfl (by norm_num) (by norm_num)⟩

/-- Repeating one identical successful call n times adds n times its
cost to the running total. -/
theorem recordAll_replicate_cost (c : Call) (n : Nat) :
    ∀ t : CostTracker,
      (t.recordAll (List.replicate n c)).totalCost = t.totalCost + n * callCost c := by
  induction n with
  | zero => intro t; simp [CostTracker.recordAll]
  | succ n ih =>
    intro t
    rw [List.replicate_succ, recordAll_cons, ih]
    cases hp : priceFor c.model with
    | none =>
      rw [record1_of_none hp]
      have h0 : callCost c = 0 := by simp [callCost, hp]
      rw [h0]
      push_cast
      ring
    | some p =>
      rw [record1_of_some hp]
      show t.totalCost + callCost c + n * callCost c = t.totalCost + (n + 1 : Nat) * callCost c
      push_cast
      ring

/-- C7: the projection for 1000 conversations of 100 average tokens
coincides exactly with recording 1000 individual sessions of
40 prompt (= 100 x 0.4) and 60 completion (= 100 x 0.6) tokens on a
fresh tracker: the projection formula and the per-session formula
agree. -/
theorem claim7_projection_consistency (model : String) (p : Pricing)
    (hp : priceFor model = some p) (proj : Projection)
    (hproj : calculateProjectedCosts 100 1000 model = .ok proj) :
    proj.totalCost
      = (CostTracker.empty.recordAll
          (List.replicate 1000 ⟨⟨40, 60, 100⟩, model, "", 0, "", ""⟩)).totalCost := by
  rw [recordAll_replicate_cost]
  unfold calculateProjectedCosts at hproj
  rw [hp] at hproj
  have hcost : callCost ⟨⟨40, 60, 100⟩, model, "", 0, "", ""⟩
      = ((40 : Int) : ℚ) / 1000000 * p.input + ((60 : Int) : ℚ) / 1000000 * p.output := by
    simp [callCost, hp]
  rw [hcost]
  have := (Except.ok.injEq _ _).mp hproj
  rw [← this]
  show (100 : ℚ) * 0.4 * 1000 / 1000000 * p.input + 100 * 0.6 * 1000 / 1000000 * p.output
      = CostTracker.empty.totalCost
        + (1000 : Nat) * (((40 : Int) : ℚ) / 1000000 * p.input
            + ((60 : Int) : ℚ) / 1000000 * p.output)
  show (100 : ℚ) * 0.4 * 1000 / 1000000 * p.input + 100 * 0.6 * 1000 / 1000000 * p.output
      = 0 + (1000 : Nat) * (((40 : Int) : ℚ) / 1000000 * p.input
            + ((60 : Int) : ℚ) / 1000000 * p.output)
  push_cast
  norm_num
  ring

end TokenCost

namespace TokenCost

/-- The projection returned for 100 average tokens and 1000
conversations on the legacy-tier model. -/
def projSample : Projection :=
  ⟨"gpt-3.5-turbo", 1000, 100 * 1000,
    100 * (0.4 : ℚ) * 1000 / 1000000 * (0.50 : ℚ),
    100 * (0.6 : ℚ) * 1000 / 1000000 * (1.50 : ℚ),
    100 * (0.4 : ℚ) * 1000 / 1000000 * (0.50 : ℚ)
      + 100 * (0.6 : ℚ) * 1000 / 1000000 * (1.50 : ℚ),
    (100 * (0.4 : ℚ) * 1000 / 1000000 * (0.50 : ℚ)
      + 100 * (0.6 : ℚ) * 1000 / 1000000 * (1.50 : ℚ)) / 1000⟩

theorem claim7_projection_consistency_witness :
    (priceFor "gpt-3.5-turbo" = some ⟨0.50, 1.50⟩ ∧
     calculateProjectedCosts 100 1000 "gpt-3.5-turbo" = .ok projSample) ∧
    projSample.totalCost
      = (CostTracker.empty.recordAll
          (List.replicate 1000 ⟨⟨40, 60, 100⟩, "gpt-3.5-turbo", "", 0, "", ""⟩)).totalCost :=
  ⟨⟨rfl, rfl⟩,
    claim7_projection_consistency "gpt-3.5-turbo" ⟨0.50, 1.50⟩ rfl projSample rfl⟩

end TokenCost

namespace TokenCost

/-- Per-model aggregate built by `generateReport`
(`byModel[model] = { count, totalCost, totalTokens }`). -/
structure ModelStats where
  count : Nat
  totalCost : ℚ
  totalTokens : Int
deriving DecidableEq, Repr

/-- One step of the `sessions.forEach` loop of `generateReport`
(lines 120-128).  A JavaScript object keeps string keys in insertion
order, embedded as an ordered association list: an existing key is
updated in place, a missing key is appended at the end (initialized to
zero and immediately incremented, folded into one step here). -/
def addSession : List (String × ModelStats) → Session → List (String × ModelStats)
  | [], s => [(s.model, ⟨1, s.costs.total, s.usage.total_tokens⟩)]
  | (m, st) :: rest, s =>
    if m = s.model then
      (m, ⟨st.count + 1, st.totalCost + s.costs.total,
           st.totalTokens + s.usage.total_tokens⟩) :: rest
    else
      (m, st) :: addSession rest s

/-- The `byModel` grouping computed by `generateReport`
(lines 115-136), keys in insertion order. -/
def CostTracker.reportByModel (t : CostTracker) : List (String × ModelStats) :=
  t.sessions.foldl addSession []

/-- Append a key if it is not already present. -/
def insKey (ks : List String) (m : String) : List String :=
  if m ∈ ks then ks else ks ++ [m]

/-- Keys in order of first appearance. -/
def firstAppearanceKeys (ms : List String) : List String :=
  ms.foldl insKey []

/-- Number of sessions recorded against model m. -/
def modelCount (l : List Session) (m : String) : Nat :=
  (l.filter (fun s => s.model == m)).length

/-- Total cost of the sessions recorded against model m. -/
def modelCost (l : List Session) (m : String) : ℚ :=
  ((l.filter (fun s => s.model == m)).map (fun s => s.costs.total)).sum

/-- Total tokens of the sessions recorded against model m. -/
def modelTokens (l : List Session) (m : String) : Int :=
  ((l.filter (fun s => s.model == m)).map (fun s => s.usage.total_tokens)).sum

theorem keys_addSession (s : Session) :
    ∀ acc : List (String × ModelStats),
      (addSession acc s).map Prod.fst = insKey (acc.map Prod.fst) s.model := by
  intro acc
  induction acc with
  | nil => simp [addSession, insKey]
  | cons q rest ih =>
    obtain ⟨m, st⟩ := q
    by_cases hm : m = s.model
    · subst hm
      simp [addSession, insKey]
    · simp only [addSession, if_neg hm, List.map_cons, ih, insKey]
      by_cases hmem : s.model ∈ rest.map Prod.fst
      · simp [hmem, Ne.symm hm]
      · simp [hmem, Ne.symm hm]

theorem lookup_addSession_self (s : Session) :
    ∀ acc : List (String × ModelStats),
      List.lookup s.model (addSession acc s)
        = some (match List.lookup s.model acc with
                | some st => ⟨st.count + 1, st.totalCost + s.costs.total,
                              st.totalTokens + s.usage.total_tokens⟩
                | none => ⟨1, s.costs.total, s.usage.total_tokens⟩) := by
  intro acc
  induction acc with
  | nil => simp [addSession, List.lookup]
  | cons q rest ih =>
    obtain ⟨m, st⟩ := q
    by_cases hm : m = s.model
    · subst hm
      simp [addSession, List.lookup]
    · have hb : (s.model == m) = false := beq_eq_false_iff_ne.mpr (Ne.symm hm)
      simp only [addSession, if_neg hm, List.lookup, hb]
      exact ih

theorem lookup_addSession_other (s : Session) (m : String) (hm : m ≠ s.model) :
    ∀ acc : List (String × ModelStats),
      List.lookup m (addSession acc s) = List.lookup m acc := by
  intro acc
  have hb : (m == s.model) = false := beq_eq_false_iff_ne.mpr hm
  induction acc with
  | nil => simp [addSession, List.lookup, hb]
  | cons q rest ih =>
    obtain ⟨k, st⟩ := q
    by_cases hk : k = s.model
    · subst hk
      simp [addSession, List.lookup, hb]
    · simp only [addSession, if_neg hk, List.lookup]
      by_cases hmk : m = k
      · subst hmk
        simp
      · have hbk : (m == k) = false := beq_eq_false_iff_ne.mpr hmk
        simp only [hbk]
        exact ih

end TokenCost

namespace TokenCost

theorem keys_foldl (l : List Session) :
    ∀ acc : List (String × ModelStats),
      (l.foldl addSession acc).map Prod.fst
        = (l.map (fun s => s.model)).foldl insKey (acc.map Prod.fst) := by
  induction l with
  | nil => intro acc; simp
  | cons s l ih =>
    intro acc
    simp only [List.foldl_cons, List.map_cons]
    rw [ih (addSession acc s), keys_addSession]

theorem lookup_foldl (l : List Session) :
    ∀ (acc : List (String × ModelStats)) (m : String),
      List.lookup m (l.foldl addSession acc)
        = match List.lookup m acc with
          | some st =>
            some ⟨st.count + modelCount l m, st.totalCost + modelCost l m,
                  st.totalTokens + modelTokens l m⟩
          | none =>
            if m ∈ l.map (fun s => s.model)
            then some ⟨modelCount l m, modelCost l m, modelTokens l m⟩
            else none := by
  induction l with
  | nil =>
    intro acc m
    cases h : List.lookup m acc with
    | some st => simp [h, modelCount, modelCost, modelTokens]
    | none => simp [h, modelCount, modelCost, modelTokens]
  | cons s l ih =>
    intro acc m
    simp only [List.foldl_cons]
    rw [ih (addSession acc s) m]
    by_cases hm : m = s.model
    · subst hm
      rw [lookup_addSession_self]
      have hcount : modelCount (s :: l) s.model = modelCount l s.model + 1 := by
        simp [modelCount, List.filter_cons]
      have hcost : modelCost (s :: l) s.model = s.costs.total + modelCost l s.model := by
        simp [modelCost, List.filter_cons]
      have htok : modelTokens (s :: l) s.model
          = s.usage.total_tokens + modelTokens l s.model := by
        simp [modelTokens, List.filter_cons]
      cases h : List.lookup s.model acc with
      | some st =>
        simp only [h, hcount, hcost, htok, List.map_cons, List.mem_cons, true_or,
          if_true]
        refine congrArg some ?_
        simp only [ModelStats.mk.injEq]
        refine ⟨by omega, by ring, by ring⟩
      | none =>
        simp only [h, hcount, hcost, htok, List.map_cons, List.mem_cons, true_or,
          if_true]
        refine congrArg some ?_
        simp only [ModelStats.mk.injEq]
        refine ⟨by omega, by ring, by ring⟩
    · rw [lookup_addSession_other s m hm]
      have hb : (s.model == m) = false := beq_eq_false_iff_ne.mpr (Ne.symm hm)
      have hcount : modelCount (s :: l) m = modelCount l m := by
        simp [modelCount, List.filter_cons, hb]
      have hcost : modelCost (s :: l) m = modelCost l m := by
        simp [modelCost, List.filter_cons, hb]
      have htok : modelTokens (s :: l) m = modelTokens l m := by
        simp [modelTokens, List.filter_cons, hb]
      rw [hcount, hcost, htok]
      simp only [List.map_cons, List.mem_cons]
      simp [hm]

/-- C8: `generateReport` groups sessions by model: the group keys are
the models in order of first appearance, and each model's group holds
the count, summed cost and summed tokens of exactly that model's
sessions.  Concretely, one cheap-model session and one premium-model
session with identical usage (prompt 50, completion 30) give two
groups of count 1 with the premium group costing strictly more. -/
theorem claim8_report_by_model :
    (∀ t : CostTracker,
      t.reportByModel.map Prod.fst
        = firstAppearanceKeys (t.sessions.map (fun s => s.model)) ∧
      ∀ m, List.lookup m t.reportByModel
          = if m ∈ t.sessions.map (fun s => s.model)
            then some ⟨modelCount t.sessions m, modelCost t.sessions m,
                       modelTokens t.sessions m⟩
            else none) ∧
    (∃ cheap premium : ModelStats,
      List.lookup "gpt-4o-mini"
          (CostTracker.empty.recordAll [sampleCallMini, sampleCall4o]).reportByModel
        = some cheap ∧
      List.lookup "gpt-4o"
          (CostTracker.empty.recordAll [sampleCallMini, sampleCall4o]).reportByModel
        = some premium ∧
      (CostTracker.empty.recordAll [sampleCallMini, sampleCall4o]).reportByModel.length
        = 2 ∧
      cheap.count = 1 ∧ premium.count = 1 ∧ cheap.totalCost < premium.totalCost) := by
  constructor
  · intro t
    constructor
    · exact keys_foldl t.sessions []
    · intro m
      have h := lookup_foldl t.sessions [] m
      simpa [CostTracker.reportByModel, List.lookup] using h
  · refine ⟨⟨1, ((50 : Int) : ℚ) / 1000000 * (0.150 : ℚ)
                 + ((30 : Int) : ℚ) / 1000000 * (0.600 : ℚ), 80⟩,
            ⟨1, ((50 : Int) : ℚ) / 1000000 * (2.50 : ℚ)
                 + ((30 : Int) : ℚ) / 1000000 * (10.00 : ℚ), 80⟩,
            rfl, rfl, rfl, rfl, rfl, ?_⟩
    show ((50 : Int) : ℚ) / 1000000 * (0.150 : ℚ) + ((30 : Int) : ℚ) / 1000000 * (0.600 : ℚ)
        < ((50 : Int) : ℚ) / 1000000 * (2.50 : ℚ) + ((30 : Int) : ℚ) / 1000000 * (10.00 : ℚ)
    norm_num

end TokenCost

namespace TokenCost

/-- One data row of `exportToCSV` (lines 148-150): fields joined by
literal commas, the description wrapped in double quotes (with no
escaping of quote characters inside it), numbers rendered by
`toString`. -/
def sessionRow (s : Session) : String :=
  toString s.id ++ "," ++ s.model ++ ",\"" ++ s.description
    ++ "\"," ++ toString s.usage.prompt_tokens ++ ","
    ++ toString s.usage.completion_tokens ++ ","
    ++ toString s.usage.total_tokens ++ ","
    ++ toString s.costs.inputCost ++ ","
    ++ toString s.costs.outputCost ++ ","
    ++ toString s.costs.total ++ ","
    ++ toString s.responseTime ++ "," ++ s.timestamp

/-- `exportToCSV` (lines 146-153): a header line ending in a newline,
then the session rows joined by newlines; no trailing newline after
the last row. -/
def CostTracker.exportToCSV (t : CostTracker) : String :=
  let csvHeader := "ID,Model,Description,InputTokens,OutputTokens,TotalTokens,InputCost,OutputCost,TotalCost,ResponseTime,Timestamp\n"
  let csvRows := String.intercalate "\n" (t.sessions.map sessionRow)
  csvHeader ++ csvRows

/-- Mode of the RFC-4180-style CSV reader used to check the round-trip
property: reading a fresh field, inside an unquoted field, inside a
quoted field, just after a quote inside a quoted field, or failed. -/
inductive CsvMode where
  | fieldStart
  | unquoted
  | quoted
  | afterQuote
  | failed
deriving DecidableEq, Repr

/-- State of the CSV reader: completed rows, completed fields of the
current row, characters of the current field, and the mode. -/
structure CsvState where
  rows : List (List String)
  fields : List String
  cur : List Char
  mode : CsvMode
deriving DecidableEq, Repr

/-- One character step of the CSV reader.  A quote opens or closes a
quoted field (doubled quotes inside a quoted field are an escaped
quote); a comma ends a field; a newline ends a row (inside a quoted
field both are literal text); any text directly following the closing
quote of a quoted field is malformed. -/
def csvStep (st : CsvState) (c : Char) : CsvState :=
  match st.mode with
  | .failed => st
  | .fieldStart =>
    if c = '"' then { st with mode := .quoted }
    else if c = ',' then { st with fields := st.fields ++ [String.mk st.cur], cur := [] }
    else if c = '\n' then
      { st with rows := st.rows ++ [st.fields ++ [String.mk st.cur]],
                fields := [], cur := [] }
    else { st with cur := st.cur ++ [c], mode := .unquoted }
  | .unquoted =>
    if c = ',' then
      { st with fields := st.fields ++ [String.mk st.cur], cur := [],
                mode := .fieldStart }
    else if c = '\n' then
      { st with rows := st.rows ++ [st.fields ++ [String.mk st.cur]],
                fields := [], cur := [], mode := .fieldStart }
    else { st with cur := st.cur ++ [c] }
  | .quoted =>
    if c = '"' then { st with mode := .afterQuote }
    else { st with cur := st.cur ++ [c] }
  | .afterQuote =>
    if c = '"' then { st with cur := st.cur ++ ['"'], mode := .quoted }
    else if c = ',' then
      { st with fields := st.fields ++ [String.mk st.cur], cur := [],
                mode := .fieldStart }
    else if c = '\n' then
      { st with rows := st.rows ++ [st.fields ++ [String.mk st.cur]],
                fields := [], cur := [], mode := .fieldStart }
    else { st with mode := .failed }

/-- End of input: a dangling quoted field or a failure is malformed;
otherwise any pending field/row is flushed (an input ending right
after a newline contributes no extra row). -/
def csvFinish (st : CsvState) : Option (List (List String)) :=
  match st.mode with
  | .failed => none
  | .quoted => none
  | .unquoted => some (st.rows ++ [st.fields ++ [String.mk st.cur]])
  | .afterQuote => some (st.rows ++ [st.fields ++ [String.mk st.cur]])
  | .fieldStart =>
    if st.fields = [] then some st.rows
    else some (st.rows ++ [st.fields ++ [String.mk st.cur]])

/-- The initial reader state. -/
def csvInit : CsvState := ⟨[], [], [], .fieldStart⟩

/-- Parse a CSV document into its rows of fields, or `none` when it is
malformed. -/
def parseCsv (s : String) : Option (List (List String)) :=
  csvFinish (s.data.foldl csvStep csvInit)

/-- A character that never interferes with CSV structure. -/
abbrev safeChar (c : Char) : Prop := c ≠ ',' ∧ c ≠ '"' ∧ c ≠ '\n'

/-- A cell of a CSV row as serialized: emitted bare, or wrapped in
double quotes. -/
inductive CsvCell where
  | raw (s : String)
  | quoted (s : String)
deriving DecidableEq, Repr

/-- The serialized text of a cell. -/
def cellText : CsvCell → String
  | .raw s => s
  | .quoted s => "\"" ++ s ++ "\""

/-- The field value a CSV reader recovers from a cell. -/
def cellValue : CsvCell → String
  | .raw s => s
  | .quoted s => s

/-- A cell whose content round-trips: a bare cell must avoid comma,
quote and newline; a quoted cell must only avoid the quote character
(commas and newlines are protected by the quotes). -/
def SafeCell : CsvCell → Prop
  | .raw s => ∀ c ∈ s.data, safeChar c
  | .quoted s => ∀ c ∈ s.data, c ≠ '"'

/-- A row serialized with comma separators. -/
def rowText : List CsvCell → String
  | [] => ""
  | [cell] => cellText cell
  | cell :: rest => cellText cell ++ "," ++ rowText rest

/-- The cells of one session row of `exportToCSV`, in column order. -/
def sessionCells (s : Session) : List CsvCell :=
  [.raw (toString s.id), .raw s.model, .quoted s.description,
   .raw (toString s.usage.prompt_tokens), .raw (toString s.usage.completion_tokens),
   .raw (toString s.usage.total_tokens), .raw (toString s.costs.inputCost),
   .raw (toString s.costs.outputCost), .raw (toString s.costs.total),
   .raw (toString s.responseTime), .raw s.timestamp]

/-- The field values of one session row. -/
def sessionValues (s : Session) : List String :=
  [toString s.id, s.model, s.description,
   toString s.usage.prompt_tokens, toString s.usage.completion_tokens,
   toString s.usage.total_tokens, toString s.costs.inputCost,
   toString s.costs.outputCost, toString s.costs.total,
   toString s.responseTime, s.timestamp]

/-- The header row of `exportToCSV` as field values. -/
def headerValues : List String :=
  ["ID", "Model", "Description", "InputTokens", "OutputTokens", "TotalTokens",
   "InputCost", "OutputCost", "TotalCost", "ResponseTime", "Timestamp"]

end TokenCost

namespace TokenCost

theorem digitChar_safe (m : Nat) : safeChar (Nat.digitChar m) := by
  by_cases h : m < 16
  · interval_cases m <;> decide
  · have he : Nat.digitChar m = '*' := by
      unfold Nat.digitChar
      repeat rw [if_neg (by omega)]
    rw [he]
    decide

theorem toDigitsCore_safe (b f : Nat) :
    ∀ (n : Nat) (l : List Char), (∀ c ∈ l, safeChar c) →
      ∀ c ∈ Nat.toDigitsCore b f n l, safeChar c := by
  induction f with
  | zero =>
    intro n l hl c hc
    simp only [Nat.toDigitsCore] at hc
    exact hl c hc
  | succ f ih =>
    intro n l hl c hc
    simp only [Nat.toDigitsCore] at hc
    by_cases hx : n / b = 0
    · simp only [hx, if_true] at hc
      rcases List.mem_cons.mp hc with h | h
      · subst h; exact digitChar_safe _
      · exact hl c h
    · simp only [hx, if_false] at hc
      refine ih (n / b) (Nat.digitChar (n % b) :: l) ?_ c hc
      intro d hd
      rcases List.mem_cons.mp hd with h | h
      · subst h; exact digitChar_safe _
      · exact hl d h

theorem natToString_safe (n : Nat) : ∀ c ∈ (toString n).data, safeChar c := by
  have h : (toString n).data = Nat.toDigitsCore 10 (n + 1) n [] := rfl
  rw [h]
  exact toDigitsCore_safe 10 (n + 1) n [] (by simp)

theorem intToString_safe (i : Int) : ∀ c ∈ (toString i).data, safeChar c := by
  cases i with
  | ofNat m =>
    have h : toString (Int.ofNat m) = toString m := rfl
    rw [h]
    exact natToString_safe m
  | negSucc m =>
    have h : toString (Int.negSucc m) = "-" ++ toString (Nat.succ m) := rfl
    rw [h]
    intro c hc
    rw [String.data_append] at hc
    rcases List.mem_append.mp hc with h2 | h2
    · have hd : c = '-' := by simpa using h2
      subst hd
      decide
    · exact natToString_safe (Nat.succ m) c h2

theorem ratToString_safe (q : ℚ) : ∀ c ∈ (toString q).data, safeChar c := by
  by_cases hq : q.den = 1
  · have h : toString q = toString q.num := by
      show (if q.den = 1 then toString q.num
            else toString "" ++ toString q.num ++ toString "/" ++ toString q.den
              ++ toString "") = toString q.num
      rw [if_pos hq]
    rw [h]
    exact intToString_safe q.num
  · have h : toString q = toString q.num ++ "/" ++ toString q.den ++ "" := by
      show (if q.den = 1 then toString q.num
            else toString "" ++ toString q.num ++ toString "/" ++ toString q.den
              ++ toString "") = _
      rw [if_neg hq]
      exact rfl
    rw [h]
    intro c hc
    simp only [String.data_append, List.mem_append] at hc
    rcases hc with ((h1 | h1) | h1) | h1
    · exact intToString_safe q.num c h1
    · have hd : c = '/' := by simpa using h1
      subst hd
      decide
    · exact natToString_safe q.den c h1
    · simpa using h1

end TokenCost

namespace TokenCost

theorem mk_data (s : String) : String.mk s.data = s := rfl

theorem csvStep_failed (st : CsvState) (c : Char) (h : st.mode = .failed) :
    csvStep st c = st := by
  obtain ⟨rows, fields, cur, mode⟩ := st
  simp only at h
  subst h
  rfl

theorem foldl_failed (cs : List Char) :
    ∀ st : CsvState, st.mode = .failed → cs.foldl csvStep st = st := by
  induction cs with
  | nil => intro st _; rfl
  | cons c cs ih =>
    intro st h
    rw [List.foldl_cons, csvStep_failed st c h]
    exact ih st h

theorem step_fs_other (c : Char) (h : safeChar c) (r : List (List String))
    (f : List String) (cur : List Char) :
    csvStep ⟨r, f, cur, .fieldStart⟩ c = ⟨r, f, cur ++ [c], .unquoted⟩ := by
  simp only [csvStep]
  rw [if_neg h.2.1, if_neg h.1, if_neg h.2.2]

theorem step_unq_other (c : Char) (h : c ≠ ',' ∧ c ≠ '\n') (r : List (List String))
    (f : List String) (cur : List Char) :
    csvStep ⟨r, f, cur, .unquoted⟩ c = ⟨r, f, cur ++ [c], .unquoted⟩ := by
  simp only [csvStep]
  rw [if_neg h.1, if_neg h.2]

theorem step_q_other (c : Char) (h : c ≠ '"') (r : List (List String))
    (f : List String) (cur : List Char) :
    csvStep ⟨r, f, cur, .quoted⟩ c = ⟨r, f, cur ++ [c], .quoted⟩ := by
  simp only [csvStep]
  rw [if_neg h]

theorem run_unquoted :
    ∀ (cs : List Char), (∀ c ∈ cs, c ≠ ',' ∧ c ≠ '\n') →
      ∀ (r : List (List String)) (f : List String) (cur : List Char),
        cs.foldl csvStep ⟨r, f, cur, .unquoted⟩ = ⟨r, f, cur ++ cs, .unquoted⟩ := by
  intro cs
  induction cs with
  | nil => intro _ r f cur; simp
  | cons c cs ih =>
    intro h r f cur
    rw [List.foldl_cons, step_unq_other c (h c (by simp)) r f cur,
      ih (fun d hd => h d (by simp [hd])) r f (cur ++ [c])]
    simp

theorem run_quoted :
    ∀ (cs : List Char), (∀ c ∈ cs, c ≠ '"') →
      ∀ (r : List (List String)) (f : List String) (cur : List Char),
        cs.foldl csvStep ⟨r, f, cur, .quoted⟩ = ⟨r, f, cur ++ cs, .quoted⟩ := by
  intro cs
  induction cs with
  | nil => intro _ r f cur; simp
  | cons c cs ih =>
    intro h r f cur
    rw [List.foldl_cons, step_q_other c (h c (by simp)) r f cur,
      ih (fun d hd => h d (by simp [hd])) r f (cur ++ [c])]
    simp

/-- The parser mode reached after reading one serialized cell. -/
def cellEndMode : CsvCell → CsvMode
  | .raw s => if s.data = [] then .fieldStart else .unquoted
  | .quoted _ => .afterQuote

theorem cell_run (cell : CsvCell) (h : SafeCell cell) (r : List (List String))
    (f : List String) :
    (cellText cell).data.foldl csvStep ⟨r, f, [], .fieldStart⟩
      = ⟨r, f, (cellValue cell).data, cellEndMode cell⟩ := by
  cases cell with
  | raw s =>
    rcases hs : s.data with - | ⟨c, cs⟩
    · show s.data.foldl csvStep _ = _
      rw [hs]
      simp [cellEndMode, cellValue, hs]
    · show s.data.foldl csvStep _ = _
      rw [hs, List.foldl_cons,
        step_fs_other c (h c (by rw [hs]; exact List.mem_cons_self c cs)) r f [],
        run_unquoted cs
          (fun d hd => (h d (by rw [hs]; exact List.mem_cons_of_mem c hd)).imp
            id (fun h2 => h2.2))
          r f ([] ++ [c])]
      simp [cellEndMode, cellValue, hs]
  | quoted s =>
    have hdata : (cellText (.quoted s)).data = '"' :: (s.data ++ ['"']) := by
      show (("\"" ++ s ++ "\"" : String)).data = _
      simp [String.data_append]
    rw [hdata, List.foldl_cons]
    rw [show csvStep ⟨r, f, [], .fieldStart⟩ '"' = ⟨r, f, [], .quoted⟩ from rfl]
    rw [List.foldl_append, run_quoted s.data h r f []]
    simp only [List.nil_append, List.foldl_cons, List.foldl_nil]
    rfl

theorem step_cellEnd_comma (cell : CsvCell) (r : List (List String)) (f : List String)
    (cur : List Char) :
    csvStep ⟨r, f, cur, cellEndMode cell⟩ ','
      = ⟨r, f ++ [String.mk cur], [], .fieldStart⟩ := by
  cases cell with
  | raw s =>
    by_cases hs : s.data = []
    · simp only [cellEndMode, if_pos hs]
      rfl
    · simp only [cellEndMode, if_neg hs]
      rfl
  | quoted s => rfl

theorem step_cellEnd_newline (cell : CsvCell) (r : List (List String)) (f : List String)
    (cur : List Char) :
    csvStep ⟨r, f, cur, cellEndMode cell⟩ '\n'
      = ⟨r ++ [f ++ [String.mk cur]], [], [], .fieldStart⟩ := by
  cases cell with
  | raw s =>
    by_cases hs : s.data = []
    · simp only [cellEndMode, if_pos hs]
      rfl
    · simp only [cellEndMode, if_neg hs]
      rfl
  | quoted s => rfl

theorem finish_cellEnd (cell : CsvCell) (r : List (List String)) (f : List String)
    (cur : List Char) (hf : f ≠ []) :
    csvFinish ⟨r, f, cur, cellEndMode cell⟩ = some (r ++ [f ++ [String.mk cur]]) := by
  cases cell with
  | raw s =>
    by_cases hs : s.data = []
    · simp only [cellEndMode, if_pos hs, csvFinish]
      rw [if_neg hf]
    · simp only [cellEndMode, if_neg hs]
      rfl
  | quoted s => rfl

theorem cell_comma (cell : CsvCell) (h : SafeCell cell) (r : List (List String))
    (f : List String) :
    ((cellText cell).data ++ [',']).foldl csvStep ⟨r, f, [], .fieldStart⟩
      = ⟨r, f ++ [cellValue cell], [], .fieldStart⟩ := by
  rw [List.foldl_append, cell_run cell h r f]
  simp only [List.foldl_cons, List.foldl_nil]
  rw [step_cellEnd_comma cell, mk_data]

theorem cell_newline (cell : CsvCell) (h : SafeCell cell) (r : List (List String))
    (f : List String) :
    ((cellText cell).data ++ ['\n']).foldl csvStep ⟨r, f, [], .fieldStart⟩
      = ⟨r ++ [f ++ [cellValue cell]], [], [], .fieldStart⟩ := by
  rw [List.foldl_append, cell_run cell h r f]
  simp only [List.foldl_cons, List.foldl_nil]
  rw [step_cellEnd_newline cell, mk_data]

end TokenCost

namespace TokenCost

theorem row_newline :
    ∀ (cells : List CsvCell), cells ≠ [] → (∀ x ∈ cells, SafeCell x) →
      ∀ (r : List (List String)) (f : List String),
        ((rowText cells).data ++ ['\n']).foldl csvStep ⟨r, f, [], .fieldStart⟩
          = ⟨r ++ [f ++ cells.map cellValue], [], [], .fieldStart⟩ := by
  intro cells
  induction cells with
  | nil => intro h; exact absurd rfl h
  | cons cell rest ih =>
    intro _ hs r f
    cases rest with
    | nil =>
      rw [show rowText [cell] = cellText cell from rfl,
        cell_newline cell (hs cell (by simp)) r f]
      simp
    | cons cell2 rest2 =>
      rw [show rowText (cell :: cell2 :: rest2)
          = cellText cell ++ "," ++ rowText (cell2 :: rest2) from rfl]
      have hdata : (cellText cell ++ "," ++ rowText (cell2 :: rest2)).data ++ ['\n']
          = ((cellText cell).data ++ [','])
              ++ ((rowText (cell2 :: rest2)).data ++ ['\n']) := by
        simp [String.data_append]
      rw [hdata, List.foldl_append, cell_comma cell (hs cell (by simp)) r f,
        ih (by simp) (fun x hx => hs x (by simp [hx])) r (f ++ [cellValue cell])]
      simp

theorem row_end :
    ∀ (cells : List CsvCell), cells ≠ [] → (∀ x ∈ cells, SafeCell x) →
      ∀ (r : List (List String)) (f : List String), (f ≠ [] ∨ 2 ≤ cells.length) →
        csvFinish ((rowText cells).data.foldl csvStep ⟨r, f, [], .fieldStart⟩)
          = some (r ++ [f ++ cells.map cellValue]) := by
  intro cells
  induction cells with
  | nil => intro h; exact absurd rfl h
  | cons cell rest ih =>
    intro _ hs r f hf
    cases rest with
    | nil =>
      have hfne : f ≠ [] := by
        rcases hf with hf | hf
        · exact hf
        · simp at hf
      rw [show rowText [cell] = cellText cell from rfl,
        cell_run cell (hs cell (by simp)) r f,
        finish_cellEnd cell r f (cellValue cell).data hfne, mk_data]
      simp
    | cons cell2 rest2 =>
      rw [show rowText (cell :: cell2 :: rest2)
          = cellText cell ++ "," ++ rowText (cell2 :: rest2) from rfl]
      have hdata : (cellText cell ++ "," ++ rowText (cell2 :: rest2)).data
          = ((cellText cell).data ++ [',']) ++ (rowText (cell2 :: rest2)).data := by
        simp [String.data_append]
      rw [hdata, List.foldl_append, cell_comma cell (hs cell (by simp)) r f,
        ih (by simp) (fun x hx => hs x (by simp [hx])) r (f ++ [cellValue cell])
          (Or.inl (by simp))]
      simp

theorem intercalate_go_eq (sep : String) :
    ∀ (as : List String) (a b : String),
      String.intercalate.go (a ++ b) sep as = a ++ String.intercalate.go b sep as := by
  intro as
  induction as with
  | nil => intro a b; rfl
  | cons c cs ih =>
    intro a b
    show String.intercalate.go (a ++ b ++ sep ++ c) sep cs
        = a ++ String.intercalate.go (b ++ sep ++ c) sep cs
    rw [String.append_assoc a b sep, String.append_assoc a (b ++ sep) c]
    exact ih a (b ++ sep ++ c)

theorem intercalate_cons_cons (sep a b : String) (rest : List String) :
    String.intercalate sep (a :: b :: rest)
      = a ++ sep ++ String.intercalate sep (b :: rest) := by
  show String.intercalate.go (a ++ sep ++ b) sep rest
      = (a ++ sep) ++ String.intercalate.go b sep rest
  exact intercalate_go_eq sep rest (a ++ sep) b

end TokenCost

namespace TokenCost

theorem sessionRow_eq (s : Session) : sessionRow s = rowText (sessionCells s) := by
  apply String.ext
  simp [sessionRow, sessionCells, rowText, cellText, String.data_append,
    List.append_assoc]

theorem sessionValues_eq (s : Session) :
    (sessionCells s).map cellValue = sessionValues s := rfl

theorem sessionCells_ne_nil (s : Session) : sessionCells s ≠ [] := by
  simp [sessionCells]

theorem sessionCells_len (s : Session) : 2 ≤ (sessionCells s).length := by
  simp [sessionCells]

theorem rows_run :
    ∀ (l : List Session), (∀ s ∈ l, ∀ x ∈ sessionCells s, SafeCell x) →
      ∀ rows : List (List String),
        csvFinish ((String.intercalate "\n" (l.map sessionRow)).data.foldl csvStep
            ⟨rows, [], [], .fieldStart⟩)
          = some (rows ++ l.map sessionValues) := by
  intro l
  induction l with
  | nil =>
    intro _ rows
    show csvFinish (("" : String).data.foldl csvStep ⟨rows, [], [], .fieldStart⟩)
        = some (rows ++ [])
    simp [csvFinish]
  | cons s rest ih =>
    intro hl rows
    cases rest with
    | nil =>
      show csvFinish ((String.intercalate "\n" [sessionRow s]).data.foldl csvStep
          ⟨rows, [], [], .fieldStart⟩) = _
      rw [show String.intercalate "\n" [sessionRow s] = sessionRow s from rfl,
        sessionRow_eq s,
        row_end (sessionCells s) (sessionCells_ne_nil s) (hl s (by simp)) rows []
          (Or.inr (sessionCells_len s))]
      simp [sessionValues_eq]
    | cons s2 rest2 =>
      rw [show (s :: s2 :: rest2).map sessionRow
          = sessionRow s :: sessionRow s2 :: rest2.map sessionRow from rfl,
        intercalate_cons_cons "\n" (sessionRow s) (sessionRow s2) (rest2.map sessionRow)]
      have hdata : (sessionRow s ++ "\n"
            ++ String.intercalate "\n" (sessionRow s2 :: rest2.map sessionRow)).data
          = ((rowText (sessionCells s)).data ++ ['\n'])
              ++ (String.intercalate "\n" (sessionRow s2 :: rest2.map sessionRow)).data := by
        rw [sessionRow_eq s]
        simp [String.data_append]
      rw [hdata, List.foldl_append,
        row_newline (sessionCells s) (sessionCells_ne_nil s) (hl s (by simp)) rows []]
      have ih2 := ih (fun x hx => hl x (by simp [hx])) (rows ++ [[] ++ (sessionCells s).map cellValue])
      rw [show String.intercalate "\n" ((s2 :: rest2).map sessionRow)
          = String.intercalate "\n" (sessionRow s2 :: rest2.map sessionRow) from rfl] at ih2
      rw [ih2]
      simp [sessionValues_eq]

end TokenCost

namespace TokenCost

set_option maxRecDepth 4000 in
theorem header_run :
    ("ID,Model,Description,InputTokens,OutputTokens,TotalTokens,InputCost,OutputCost,TotalCost,ResponseTime,Timestamp\n" : String).data.foldl
        csvStep csvInit = ⟨[headerValues], [], [], .fieldStart⟩ := by
  decide

/-- Parsing the full CSV export of a tracker whose stored sessions all
serialize to safe cells recovers the header row and one row of field
values per session. -/
theorem parse_exportToCSV (t : CostTracker)
    (hl : ∀ s ∈ t.sessions, ∀ x ∈ sessionCells s, SafeCell x) :
    parseCsv t.exportToCSV = some (headerValues :: t.sessions.map sessionValues) := by
  show csvFinish ((t.exportToCSV).data.foldl csvStep csvInit) = _
  have hdata : (t.exportToCSV).data
      = ("ID,Model,Description,InputTokens,OutputTokens,TotalTokens,InputCost,OutputCost,TotalCost,ResponseTime,Timestamp\n" : String).data
          ++ (String.intercalate "\n" (t.sessions.map sessionRow)).data := by
    simp [CostTracker.exportToCSV, String.data_append]
  rw [hdata, List.foldl_append, header_run, rows_run t.sessions hl [headerValues]]
  simp

/-- A call that keeps the CSV export parseable: its model is priced
(hence one of the table's three keys), its description contains no
double quote, and its timestamp (an ISO-8601 string in the reference
code) contains no comma, quote or newline. -/
abbrev SafeCall (c : Call) : Prop :=
  (priceFor c.model).isSome = true ∧ (∀ ch ∈ c.description.data, ch ≠ '"') ∧
  (∀ ch ∈ c.timestamp.data, safeChar ch)

theorem model_of_priceFor {model : String} {p : Pricing}
    (hp : priceFor model = some p) :
    model = "gpt-4o-mini" ∨ model = "gpt-4o" ∨ model = "gpt-3.5-turbo" := by
  by_cases h1 : ("gpt-4o-mini" : String) = model
  · exact .inl h1.symm
  by_cases h2 : ("gpt-4o" : String) = model
  · exact .inr (.inl h2.symm)
  by_cases h3 : ("gpt-3.5-turbo" : String) = model
  · exact .inr (.inr h3.symm)
  exfalso
  have hb1 : (("gpt-4o-mini" : String) == model) = false := beq_eq_false_iff_ne.mpr h1
  have hb2 : (("gpt-4o" : String) == model) = false := beq_eq_false_iff_ne.mpr h2
  have hb3 : (("gpt-3.5-turbo" : String) == model) = false := beq_eq_false_iff_ne.mpr h3
  simp [priceFor, PRICING, List.find?, hb1, hb2, hb3] at hp

theorem model_safe {model : String} {p : Pricing} (hp : priceFor model = some p) :
    ∀ ch ∈ model.data, safeChar ch := by
  rcases model_of_priceFor hp with h | h | h <;> (subst h; decide)

/-- A stored session whose CSV cells are all safe and whose cost total
is the sum of its input and output costs. -/
def GoodSession (s : Session) : Prop :=
  (∀ x ∈ sessionCells s, SafeCell x) ∧
  s.costs.total = s.costs.inputCost + s.costs.outputCost

theorem goodSession_recordAll :
    ∀ (cs : List Call), (∀ c ∈ cs, SafeCall c) →
      ∀ t : CostTracker, (∀ s ∈ t.sessions, GoodSession s) →
        ∀ s ∈ (t.recordAll cs).sessions, GoodSession s := by
  intro cs
  induction cs with
  | nil => intro _ t ht; exact ht
  | cons c cs ih =>
    intro h t ht
    rw [recordAll_cons]
    apply ih (fun d hd => h d (by simp [hd]))
    intro s hs
    obtain ⟨hm, hdesc, hts⟩ := h c (by simp)
    cases hp : priceFor c.model with
    | none => rw [record1_of_none hp] at hs; exact ht s hs
    | some p =>
      rw [record1_of_some hp] at hs
      simp only [List.mem_append, List.mem_singleton] at hs
      rcases hs with hs | hs
      · exact ht s hs
      · subst hs
        constructor
        · intro x hx
          simp only [sessionCells, List.mem_cons, List.not_mem_nil, or_false] at hx
          rcases hx with hx | hx | hx | hx | hx | hx | hx | hx | hx | hx | hx <;>
            subst hx
          · exact natToString_safe _
          · exact model_safe hp
          · exact hdesc
          · exact intToString_safe _
          · exact intToString_safe _
          · exact intToString_safe _
          · exact ratToString_safe _
          · exact ratToString_safe _
          · exact ratToString_safe _
          · exact natToString_safe _
          · exact hts
        · show callCost c = _ + _
          simp [callCost, hp]

end TokenCost

namespace TokenCost

/-- C5 (amended): for every tracker reached by successful
`recordSession` calls whose descriptions contain no double-quote
character (and whose timestamps, ISO strings in the reference code,
contain no comma, quote or newline), the CSV export parses back to
exactly one header row plus `conversationCount` data rows in recording
order, and each data row's TotalCost column is the rendering of that
row's inputCost + outputCost. -/
theorem claim5_csv_round_trip (cs : List Call) (h : ∀ c ∈ cs, SafeCall c) :
    parseCsv (CostTracker.empty.recordAll cs).exportToCSV
      = some (headerValues
          :: (CostTracker.empty.recordAll cs).sessions.map sessionValues) ∧
    (headerValues :: (CostTracker.empty.recordAll cs).sessions.map sessionValues).length
      = (CostTracker.empty.recordAll cs).conversationCount + 1 ∧
    ∀ s ∈ (CostTracker.empty.recordAll cs).sessions,
      (sessionValues s)[8]?
        = some (toString (s.costs.inputCost + s.costs.outputCost)) := by
  have hgood : ∀ s ∈ (CostTracker.empty.recordAll cs).sessions, GoodSession s :=
    goodSession_recordAll cs h CostTracker.empty (by simp [CostTracker.empty])
  refine ⟨parse_exportToCSV _ (fun s hs => (hgood s hs).1), ?_, ?_⟩
  · obtain ⟨-, -, h3, h4⟩ :=
      recordAll_totals cs CostTracker.empty (fun c hc => (h c hc).1)
    have h3b : (CostTracker.empty.recordAll cs).conversationCount = cs.length := by
      rw [h3]
      show 0 + cs.length = cs.length
      omega
    have h4b : (CostTracker.empty.recordAll cs).sessions.length = cs.length := by
      rw [h4]
      show 0 + cs.length = cs.length
      omega
    simp [h3b, h4b]
  · intro s hs
    have h8 : (sessionValues s)[8]? = some (toString s.costs.total) := rfl
    rw [h8, (hgood s hs).2]

theorem claim5_csv_round_trip_witness :
    (∀ c ∈ [sampleCallMini, sampleCall4o], SafeCall c) ∧
    (parseCsv (CostTracker.empty.recordAll [sampleCallMini, sampleCall4o]).exportToCSV
        = some (headerValues
            :: (CostTracker.empty.recordAll
                  [sampleCallMini, sampleCall4o]).sessions.map sessionValues) ∧
     (headerValues
        :: (CostTracker.empty.recordAll
              [sampleCallMini, sampleCall4o]).sessions.map sessionValues).length
       = (CostTracker.empty.recordAll [sampleCallMini, sampleCall4o]).conversationCount
           + 1 ∧
     ∀ s ∈ (CostTracker.empty.recordAll [sampleCallMini, sampleCall4o]).sessions,
       (sessionValues s)[8]?
         = some (toString (s.costs.inputCost + s.costs.outputCost))) :=
  ⟨by decide, claim5_csv_round_trip [sampleCallMini, sampleCall4o] (by decide)⟩

/-- A call whose description contains a double quote: the reference
`exportToCSV` wraps it in quotes without escaping the embedded quote,
producing a malformed CSV. -/
def quoteCall : Call :=
  ⟨⟨50, 30, 80⟩, "gpt-4o-mini", "say \"hi\"", 12, "2025-01-01T00:00:00.000Z", "ok"⟩

theorem csvFinish_failed (st : CsvState) (h : st.mode = .failed) :
    csvFinish st = none := by
  obtain ⟨r, f, cur, m⟩ := st
  simp only at h
  subst h
  rfl

set_option maxRecDepth 10000 in
/-- C5 counterexample: after recording one session whose description
is `say "hi"`, the tracker holds one conversation but its CSV export
does not parse: the claim that the export always parses into
`conversationCount` data rows plus a header fails for descriptions
containing a double quote. -/
theorem claim5_counterexample :
    (CostTracker.empty.recordAll [quoteCall]).conversationCount = 1 ∧
    parseCsv (CostTracker.empty.recordAll [quoteCall]).exportToCSV = none := by
  constructor
  · rfl
  · have hpre : ∃ rest : List Char,
        (CostTracker.empty.recordAll [quoteCall]).exportToCSV.data
          = ("ID,Model,Description,InputTokens,OutputTokens,TotalTokens,InputCost,OutputCost,TotalCost,ResponseTime,Timestamp\n1,gpt-4o-mini,\"say \"h" : String).data
              ++ rest :=
      ⟨_, rfl⟩
    obtain ⟨rest, hrest⟩ := hpre
    have hfail : (("ID,Model,Description,InputTokens,OutputTokens,TotalTokens,InputCost,OutputCost,TotalCost,ResponseTime,Timestamp\n1,gpt-4o-mini,\"say \"h" : String).data.foldl
        csvStep csvInit).mode = .failed := by
      decide
    show csvFinish _ = none
    rw [hrest, List.foldl_append, foldl_failed rest _ hfail]
    exact csvFinish_failed _ hfail

end TokenCost
